import Mathlib

/-!
Verification development for the `regexdownload` program
(src/regexdownload/regexdownload.go): a two-phase pipeline that fetches seed
pages, extracts a naming stem and asset URLs with configured regular
expressions, and downloads the assets.

Strings are modelled as `List Char` (`Str`).  Pure string transforms
(`cleanPrefix`, `path.Ext`, `%02d` rendering, `strings.Split`) are translated
directly from the Go source or, for standard-library calls, from their
documented behaviour.  Effectful code (`processURL`, `downloadURL`, the
orchestration in `main`) is translated into pure functions over an explicit
environment (`Env`, `DEnv`) that supplies the outcome of every external call
(URL parsing, regex compilation, HTTP fetches, filesystem operations), and
each function additionally returns a trace recording the externally visible
effects (HTTP GETs issued, temp-file creation/removal/rename, target-file
creation).
-/

/-- Strings are modelled as lists of characters. -/
abbrev Str := List Char

/-- Conversion from Lean string literals to the model string type. -/
def str (s : String) : Str := s.toList

/-- The backslash character. -/
def bslashC : Char := Char.ofNat 92

/-- The double-quote character. -/
def dquoteC : Char := Char.ofNat 34

/-- The vertical-bar (pipe) character. -/
def pipeC : Char := Char.ofNat 124

/-- The horizontal-tab character. -/
def tabC : Char := Char.ofNat 9

/-- The no-break space character U+00A0. -/
def nbspC : Char := Char.ofNat 0xA0

/-!
The sanitizer `cleanPrefix` (regexdownload.go lines 39-48) performs, in order:
HTML entity decoding (`html.UnescapeString`), removal of `/`, `\` and `|`
(`strings.NewReplacer`), collapsing of runs of space, tab and U+00A0 into one
space (`regexp.MustCompile("[ \t ]+").ReplaceAllString(_, " ")`), and
`strings.TrimSpace`.
-/

/-- Entity table modelling `html.UnescapeString` restricted to a core set of
named entities.  The Go source calls the standard library, whose table is much
larger; on inputs that only use entities of this table the model agrees with
the library exactly, and every concrete input used below is of that form. -/
def entityTable : List (Str × Char) :=
  [(str "amp;", '&'), (str "lt;", '<'), (str "gt;", '>'),
   (str "quot;", dquoteC), (str "nbsp;", nbspC), (str "sol;", '/'),
   (str "vert;", pipeC), (str "bsol;", bslashC)]

/-- Look for an entity name at the head of `l`; return the decoded character
and the number of characters consumed. -/
def findEnt (l : Str) : Option (Char × Nat) :=
  match entityTable.find? (fun e => e.1.isPrefixOf l) with
  | some e => some (e.2, e.1.length)
  | none => none

/-- Fuel-indexed worker for `unescapeString`; the fuel is the input length,
which suffices because every step consumes at least one character. -/
def unescAux : Nat → Str → Str
  | 0, _ => []
  | _ + 1, [] => []
  | fuel + 1, c :: rest =>
    if c = '&' then
      match findEnt rest with
      | some (d, k) => d :: unescAux fuel (rest.drop k)
      | none => '&' :: unescAux fuel rest
    else c :: unescAux fuel rest

/-- Model of `html.UnescapeString` (see `entityTable`). -/
def unescapeString (l : Str) : Str := unescAux l.length l

/-- The characters removed by the `strings.NewReplacer("/", "", "\\", "", "|", "")`
step (regexdownload.go line 41). -/
def isSep (c : Char) : Bool := c = '/' || c = bslashC || c = pipeC

/-- Model of the replacer step: every `/`, `\` and `|` is deleted. -/
def stripSeps (l : Str) : Str := l.filter (fun c => !(isSep c))

/-- The character class of the whitespace regex `[ \t ]+`. -/
def isHWS (c : Char) : Bool := c = ' ' || c = tabC || c = nbspC

/-- Model of `reWhitespace.ReplaceAllString(cleaned, " ")`: every maximal run
of characters from `[ \t ]` becomes a single space. -/
def collapseWS : Str → Str
  | [] => []
  | c :: rest =>
    let r := collapseWS rest
    if isHWS c then (if r.head? = some ' ' then r else ' ' :: r)
    else c :: r

/-- Model of `unicode.IsSpace` on the Latin-1 range, the set trimmed by
`strings.TrimSpace`. -/
def isSpaceGo (c : Char) : Bool :=
  c = ' ' || c = tabC || c = '\n' || c = Char.ofNat 11 || c = Char.ofNat 12 ||
  c = '\r' || c = Char.ofNat 0x85 || c = nbspC

/-- Model of `strings.TrimSpace`: drop leading and trailing whitespace. -/
def trimSpace (l : Str) : Str :=
  ((l.dropWhile isSpaceGo).reverse.dropWhile isSpaceGo).reverse

/-- Model of `cleanPrefix` (regexdownload.go lines 39-48). -/
def cleanPrefix (s : Str) : Str :=
  trimSpace (collapseWS (stripSeps (unescapeString s)))

example : cleanPrefix (str "&amp;amp;") = str "&amp;" := by decide
example : cleanPrefix (cleanPrefix (str "&amp;amp;")) = str "&" := by decide
example : cleanPrefix (str " a/  b ") = str "a b" := by decide

/-! Structural facts about the sanitizer pipeline, used to settle the
idempotence claim. -/

/-- Absence of two adjacent spaces. -/
def noAdjSpace (l : Str) : Prop :=
  l.Chain' (fun a b => ¬(a = ' ' ∧ b = ' '))

lemma mem_collapseWS : ∀ {l : Str} {c : Char}, c ∈ collapseWS l → c = ' ' ∨ c ∈ l := by
  intro l
  induction l with
  | nil => intro c h; simp [collapseWS] at h
  | cons a rest ih =>
    intro c h
    simp only [collapseWS] at h
    by_cases ha : isHWS a
    · rw [if_pos ha] at h
      by_cases hh : (collapseWS rest).head? = some ' '
      · rw [if_pos hh] at h
        rcases ih h with h' | h'
        · exact Or.inl h'
        · exact Or.inr (List.mem_cons_of_mem _ h')
      · rw [if_neg hh] at h
        rcases List.mem_cons.mp h with h' | h'
        · exact Or.inl h'
        · rcases ih h' with h'' | h''
          · exact Or.inl h''
          · exact Or.inr (List.mem_cons_of_mem _ h'')
    · rw [if_neg ha] at h
      rcases List.mem_cons.mp h with h' | h'
      · exact Or.inr (h' ▸ List.mem_cons_self _ _)
      · rcases ih h' with h'' | h''
        · exact Or.inl h''
        · exact Or.inr (List.mem_cons_of_mem _ h'')

lemma collapseWS_hws : ∀ {l : Str} {c : Char}, c ∈ collapseWS l → isHWS c = true → c = ' ' := by
  intro l
  induction l with
  | nil => intro c h; simp [collapseWS] at h
  | cons a rest ih =>
    intro c h hc
    simp only [collapseWS] at h
    by_cases ha : isHWS a
    · rw [if_pos ha] at h
      by_cases hh : (collapseWS rest).head? = some ' '
      · rw [if_pos hh] at h; exact ih h hc
      · rw [if_neg hh] at h
        rcases List.mem_cons.mp h with h' | h'
        · exact h'
        · exact ih h' hc
    · rw [if_neg ha] at h
      rcases List.mem_cons.mp h with h' | h'
      · exact absurd (h' ▸ hc) (by simp [ha])
      · exact ih h' hc

lemma chain_collapseWS : ∀ l : Str, noAdjSpace (collapseWS l) := by
  intro l
  induction l with
  | nil => simp [collapseWS, noAdjSpace]
  | cons a rest ih =>
    simp only [collapseWS]
    by_cases ha : isHWS a
    · rw [if_pos ha]
      by_cases hh : (collapseWS rest).head? = some ' '
      · rw [if_pos hh]; exact ih
      · rw [if_neg hh]
        refine List.chain'_cons'.mpr ⟨?_, ih⟩
        intro y hy hcontra
        exact hh (by rw [hy, hcontra.2])
    · rw [if_neg ha]
      refine List.chain'_cons'.mpr ⟨?_, ih⟩
      intro y _ hcontra
      exact ha (by simp [isHWS, hcontra.1])

lemma collapseWS_fix : ∀ l : Str, (∀ c ∈ l, isHWS c = true → c = ' ') → noAdjSpace l →
    collapseWS l = l := by
  intro l
  induction l with
  | nil => intro _ _; rfl
  | cons a rest ih =>
    intro h1 h2
    obtain ⟨hhead, htail⟩ := List.chain'_cons'.mp h2
    have ihr : collapseWS rest = rest :=
      ih (fun c hc => h1 c (List.mem_cons_of_mem _ hc)) htail
    simp only [collapseWS]
    by_cases ha : isHWS a
    · have haSp : a = ' ' := h1 a (List.mem_cons_self _ _) ha
      rw [if_pos ha, ihr]
      have hne : rest.head? ≠ some ' ' := by
        intro hcon
        exact hhead ' ' hcon ⟨haSp, rfl⟩
      rw [if_neg hne, haSp]
    · rw [if_neg ha, ihr]

lemma exists_dropWhile_append (p : Char → Bool) :
    ∀ l : Str, ∃ t, t ++ l.dropWhile p = l := by
  intro l
  induction l with
  | nil => exact ⟨[], rfl⟩
  | cons a rest ih =>
    by_cases hp : p a
    · obtain ⟨t, ht⟩ := ih
      exact ⟨a :: t, by simp [List.dropWhile_cons, hp, ht]⟩
    · exact ⟨[], by simp [List.dropWhile_cons, hp]⟩

lemma head_dropWhile_false (p : Char → Bool) :
    ∀ (l : Str) (c : Char), (l.dropWhile p).head? = some c → p c = false := by
  intro l
  induction l with
  | nil => intro c h; simp [List.dropWhile] at h
  | cons a rest ih =>
    intro c h
    rw [List.dropWhile_cons] at h
    by_cases hp : p a
    · rw [if_pos hp] at h; exact ih c h
    · rw [if_neg hp] at h
      simp only [List.head?_cons, Option.some.injEq] at h
      rw [← h]
      exact Bool.eq_false_iff.mpr hp

lemma dropWhile_eq_self_of_head (p : Char → Bool) (l : Str)
    (h : ∀ c, l.head? = some c → p c = false) : l.dropWhile p = l := by
  cases l with
  | nil => rfl
  | cons a rest =>
    rw [List.dropWhile_cons, if_neg]
    simp [h a rfl]

lemma trim_decomp (l : Str) : ∃ u v, u ++ trimSpace l ++ v = l := by
  obtain ⟨u, hu⟩ := exists_dropWhile_append isSpaceGo l
  obtain ⟨w, hw⟩ := exists_dropWhile_append isSpaceGo (l.dropWhile isSpaceGo).reverse
  refine ⟨u, w.reverse, ?_⟩
  have hd : l.dropWhile isSpaceGo =
      ((l.dropWhile isSpaceGo).reverse.dropWhile isSpaceGo).reverse ++ w.reverse := by
    have := congrArg List.reverse hw
    simpa using this.symm
  rw [trimSpace, List.append_assoc, ← hd, hu]

lemma trim_idem (l : Str) : trimSpace (trimSpace l) = trimSpace l := by
  have stepA : (trimSpace l).dropWhile isSpaceGo = trimSpace l := by
    apply dropWhile_eq_self_of_head
    intro c hc
    obtain ⟨w, hw⟩ := exists_dropWhile_append isSpaceGo (l.dropWhile isSpaceGo).reverse
    have hd : l.dropWhile isSpaceGo = trimSpace l ++ w.reverse := by
      have := congrArg List.reverse hw
      simpa [trimSpace] using this.symm
    have hhead : (l.dropWhile isSpaceGo).head? = some c := by
      rw [hd]
      cases htl : trimSpace l with
      | nil => rw [htl] at hc; simp at hc
      | cons x xs =>
        rw [htl] at hc
        simp only [List.head?_cons, Option.some.injEq] at hc
        simp [hc]
    exact head_dropWhile_false isSpaceGo l c hhead
  have stepB : ((trimSpace l).reverse).dropWhile isSpaceGo = (trimSpace l).reverse := by
    apply dropWhile_eq_self_of_head
    intro c hc
    have : (trimSpace l).reverse = (l.dropWhile isSpaceGo).reverse.dropWhile isSpaceGo := by
      simp [trimSpace]
    rw [this] at hc
    exact head_dropWhile_false isSpaceGo (l.dropWhile isSpaceGo).reverse c hc
  rw [trimSpace, stepA, stepB]
  simp

lemma chain_of_decomp {u m v : Str} (h : noAdjSpace (u ++ m ++ v)) : noAdjSpace m := by
  rw [noAdjSpace, List.append_assoc, List.chain'_append] at h
  exact (List.chain'_append.mp h.2.1).1

lemma stripSeps_eq_self (l : Str) (h : ∀ c ∈ l, isSep c = false) : stripSeps l = l :=
  List.filter_eq_self.mpr (fun a ha => by simp [h a ha])

lemma mem_of_mem_trim {l : Str} {c : Char} (h : c ∈ trimSpace l) : c ∈ l := by
  obtain ⟨u, v, huv⟩ := trim_decomp l
  rw [← huv]
  simp only [List.mem_append]
  exact Or.inl (Or.inr h)

lemma cleanPrefix_fix_parts (s : Str) :
    stripSeps (cleanPrefix s) = cleanPrefix s ∧
    collapseWS (cleanPrefix s) = cleanPrefix s ∧
    trimSpace (cleanPrefix s) = cleanPrefix s := by
  have hmemX : ∀ c ∈ cleanPrefix s,
      c = ' ' ∨ c ∈ stripSeps (unescapeString s) := by
    intro c hc
    exact mem_collapseWS (mem_of_mem_trim hc)
  refine ⟨?_, ?_, trim_idem _⟩
  · apply stripSeps_eq_self
    intro c hc
    rcases hmemX c hc with h' | h'
    · rw [h']; rfl
    · have := (List.mem_filter.mp h').2
      simpa using this
  · apply collapseWS_fix
    · intro c hc hhws
      exact collapseWS_hws (mem_of_mem_trim hc) hhws
    · obtain ⟨u, v, huv⟩ := trim_decomp (collapseWS (stripSeps (unescapeString s)))
      exact chain_of_decomp (huv.symm ▸ chain_collapseWS (stripSeps (unescapeString s)))

/-- C3 counterexample: `cleanPrefix` is not idempotent.  On the input
`&amp;amp;` one application decodes `&amp;` once and yields `&amp;`, while a
second application decodes again and yields `&`. -/
theorem cleanPrefix_not_idempotent :
    cleanPrefix (cleanPrefix (str "&amp;amp;")) ≠ cleanPrefix (str "&amp;amp;") := by
  decide

/-- C3 (amended): the Prefix Sanitizer is idempotent on every input whose
sanitized form is a fixed point of entity decoding (equivalently, whose
sanitized form contains no further decodable entity text).  The entity
decoding step is the only source of non-idempotence: the remaining steps
(strip separators, collapse whitespace, trim) leave a sanitized string
unchanged. -/
theorem cleanPrefix_idempotent_of_decoded (s : Str)
    (h : unescapeString (cleanPrefix s) = cleanPrefix s) :
    cleanPrefix (cleanPrefix s) = cleanPrefix s := by
  obtain ⟨h1, h2, h3⟩ := cleanPrefix_fix_parts s
  calc cleanPrefix (cleanPrefix s)
      = trimSpace (collapseWS (stripSeps (unescapeString (cleanPrefix s)))) := rfl
    _ = trimSpace (collapseWS (stripSeps (cleanPrefix s))) := by rw [h]
    _ = cleanPrefix s := by rw [h1, h2, h3]

/-- C3 witness: the amended idempotence theorem applied at the concrete input
`ab  cd`. -/
theorem cleanPrefix_idempotent_of_decoded_witness :
    cleanPrefix (cleanPrefix (str "ab  cd")) = cleanPrefix (str "ab  cd") :=
  cleanPrefix_idempotent_of_decoded (str "ab  cd") (by decide)

/-! Data model of the pipeline (regexdownload.go lines 22-36) and the
environment supplying the outcomes of external calls. -/

/-- Model of `strings.Split(hostname, ".")`. -/
def splitOnDot : Str → List Str
  | [] => [[]]
  | c :: rest =>
    let r := splitOnDot rest
    if c = '.' then [] :: r
    else
      match r with
      | [] => [[c]]
      | h :: t => (c :: h) :: t

example : splitOnDot (str "a.ex.com") = [str "a", str "ex", str "com"] := by decide
example : (splitOnDot (str "localhost")).length = 1 := by decide

/-- Model of `strings.HasPrefix(s, p)`. -/
def strStarts (s p : Str) : Bool := p.isPrefixOf s

/-- The scheme test of regexdownload.go line 112: the raw argument starts with
`http://` or `https://`. -/
def httpScheme (arg : Str) : Bool :=
  strStarts arg (str "http://") || strStarts arg (str "https://")

/-- One key of a configuration section (`ini` key: name and value). -/
structure ConfigKey where
  name : Str
  value : Str
deriving DecidableEq, Repr

/-- One configuration section: a name and an ordered key list. -/
structure ConfigSection where
  name : Str
  keys : List ConfigKey
deriving DecidableEq, Repr

/-- The loaded configuration: an ordered section list. -/
structure Config where
  sections : List ConfigSection
deriving DecidableEq, Repr

/-- Model of `section.HasKey(n)`. -/
def ConfigSection.hasKey (s : ConfigSection) (n : Str) : Bool :=
  s.keys.any (fun k => k.name = n)

/-- Model of `section.Key(n).String()` (empty when the key is absent). -/
def ConfigSection.keyString (s : ConfigSection) (n : Str) : Str :=
  match s.keys.find? (fun k => k.name = n) with
  | some k => k.value
  | none => []

/-- Model of `cfg.GetSection(n)`; `none` models the error return. -/
def Config.getSection (c : Config) (n : Str) : Option ConfigSection :=
  c.sections.find? (fun s => s.name = n)

/-- Abstract value of a compiled regular expression: its two matching
operations as used by the source (`FindSubmatch` returns the group list of the
first match, empty when there is no match; `FindAllSubmatch _ -1` returns the
group lists of all non-overlapping matches in document order). -/
structure Regexv where
  findSubmatch : Str → List Str
  findAllSubmatch : Str → List (List Str)

/-- Outcome of an `http.Get`: a transport error, or a response with status
code and body. -/
inductive Fetch where
  | transportErr (msg : Str)
  | ok (status : Nat) (body : Str)
deriving DecidableEq, Repr

/-- Environment of one `processURL` invocation: outcomes of `url.Parse` plus
`Hostname` (`none` models a parse error), `regexp.Compile` (`none` models a
compile error), `http.Get`, the two clock readings, and whether each
filesystem operation fails. -/
structure Env where
  parseHost : Str → Option Str
  compile : Str → Option Regexv
  fetch : Str → Fetch
  unixTime : Int
  unixNano : Int
  createTempErr : Bool
  copyErr : Bool
  readErr : Bool
  renameErr : Bool

/-- The failure cases a `ProcessResult.Err` can carry, one per `fmt.Errorf`
site in `processURL`. -/
inductive PErr where
  | parseFailed
  | invalidDomain (host : Str)
  | sectionNotFound (name : Str)
  | downloadFailed (msg : Str)
  | badStatus (status : Nat)
  | createTempFailed
  | writeTempFailed
  | readTempFailed
  | invalidPrefixRegex (pat : Str)
deriving DecidableEq, Repr

/-- Model of `ProcessResult` (regexdownload.go lines 22-29). -/
structure ProcessResult where
  URL : Str
  FinalPrefix : Str := []
  FoundURLs : List Str := []
  Err : Option PErr := none
  OutputMessages : List Str := []
deriving DecidableEq, Repr

/-- Externally visible effects of one `processURL` invocation: the HTTP GETs
issued, whether the temporary file was created, whether it was removed, and
the name it was renamed to (when retained). -/
structure PTrace where
  httpGets : List Str := []
  tempCreated : Bool := false
  tempRemoved : Bool := false
  tempRenamed : Option Str := none
deriving DecidableEq, Repr

/-- Extraction loop of regexdownload.go lines 168-183: for every key whose
name starts with `re`, compile its pattern (a failure appends a warning and
skips the key) and append the first capture group of every match that has one. -/
def extractFromKeys (env : Env) (content : Str) (keys : List ConfigKey) :
    List Str × List Str :=
  keys.foldl (fun acc k =>
    if strStarts k.name (str "re") then
      match env.compile k.value with
      | none => (acc.1 ++ [str "  Warning: Invalid regex for key " ++ k.name], acc.2)
      | some re =>
        (acc.1,
         (re.findAllSubmatch content).foldl
           (fun us m => if 1 < m.length then us ++ [m.getD 1 []] else us) acc.2)
    else acc) ([], [])

/-- Final part of `processURL` (regexdownload.go lines 168-203): run the
extraction loop, then rename or delete the temporary file, then sanitize the
final prefix. -/
def finishProcess (env : Env) (arg : Str) (keep : Bool) (sectionName : Str)
    (sect : ConfigSection) (msgs : List Str) (prefixRaw : Str) (content : Str) :
    ProcessResult × PTrace :=
  let ex := extractFromKeys env content sect.keys
  if keep then
    let newFileName := sectionName ++ str "-" ++ (toString env.unixNano).toList ++ str ".html"
    if env.renameErr then
      ({ URL := arg, FinalPrefix := cleanPrefix prefixRaw, FoundURLs := ex.2, Err := none,
         OutputMessages := msgs ++ ex.1 ++ [str "  Warning: Failed to keep temporary file"] },
       { httpGets := [arg], tempCreated := true, tempRemoved := true })
    else
      ({ URL := arg, FinalPrefix := cleanPrefix prefixRaw, FoundURLs := ex.2, Err := none,
         OutputMessages := msgs ++ ex.1 ++ [str "  Kept temporary file as " ++ newFileName] },
       { httpGets := [arg], tempCreated := true, tempRemoved := false,
         tempRenamed := some newFileName })
  else
    ({ URL := arg, FinalPrefix := cleanPrefix prefixRaw, FoundURLs := ex.2, Err := none,
       OutputMessages := msgs ++ ex.1 },
     { httpGets := [arg], tempCreated := true, tempRemoved := true })

/-- Middle part of `processURL` (regexdownload.go lines 130-167): create the
temporary file, stream the body into it, read it back, then apply the deferred
`prefix` pattern.  Note that a `prefix` pattern compile failure (line 155)
returns without removing the temporary file. -/
def afterFetch (env : Env) (arg : Str) (keep : Bool) (sectionName : Str)
    (sect : ConfigSection) (hasPrefixRegex : Bool) (prefixValue : Str)
    (msgs : List Str) (body : Str) : ProcessResult × PTrace :=
  if env.createTempErr then
    ({ URL := arg, FinalPrefix := prefixValue, Err := some .createTempFailed,
       OutputMessages := msgs }, { httpGets := [arg] })
  else if env.copyErr then
    ({ URL := arg, FinalPrefix := prefixValue, Err := some .writeTempFailed,
       OutputMessages := msgs },
     { httpGets := [arg], tempCreated := true, tempRemoved := true })
  else if env.readErr then
    ({ URL := arg, FinalPrefix := prefixValue, Err := some .readTempFailed,
       OutputMessages := msgs },
     { httpGets := [arg], tempCreated := true, tempRemoved := true })
  else
    if hasPrefixRegex then
      match env.compile prefixValue with
      | none =>
        ({ URL := arg, FinalPrefix := prefixValue,
           Err := some (.invalidPrefixRegex prefixValue), OutputMessages := msgs },
         { httpGets := [arg], tempCreated := true, tempRemoved := false })
      | some re =>
        if 2 ≤ (re.findSubmatch body).length then
          finishProcess env arg keep sectionName sect
            (msgs ++ [str "  Prefix extracted from content."])
            ((re.findSubmatch body).getD 1 []) body
        else
          finishProcess env arg keep sectionName sect
            (msgs ++ [str "  Prefix regex did not match or had no capture group."])
            prefixValue body
    else finishProcess env arg keep sectionName sect msgs prefixValue body

/-- Part of `processURL` after section resolution (regexdownload.go lines
104-129): determine the prefix value, test the scheme, issue the GET and check
the status. -/
def afterSection (env : Env) (arg : Str) (keep : Bool) (sectionName : Str)
    (sect : ConfigSection) : ProcessResult × PTrace :=
  let msgs := [str "Processing section " ++ sectionName ++ str "..."]
  let hasPrefixRegex := sect.hasKey (str "prefix")
  let prefixValue : Str :=
    if hasPrefixRegex then sect.keyString (str "prefix")
    else sectionName ++ str "-" ++ (toString env.unixTime).toList
  if httpScheme arg = false then
    ({ URL := arg, FinalPrefix := cleanPrefix prefixValue, FoundURLs := [], Err := none,
       OutputMessages := msgs ++ [str "Argument is not a downloadable HTTP/S URL."] }, {})
  else
    match env.fetch arg with
    | .transportErr m =>
      ({ URL := arg, FinalPrefix := prefixValue, Err := some (.downloadFailed m),
         OutputMessages := msgs }, { httpGets := [arg] })
    | .ok status body =>
      if status ≠ 200 then
        ({ URL := arg, FinalPrefix := prefixValue, Err := some (.badStatus status),
           OutputMessages := msgs }, { httpGets := [arg] })
      else afterFetch env arg keep sectionName sect hasPrefixRegex prefixValue msgs body

/-- Model of `processURL` (regexdownload.go lines 79-204).  The result pairs
the `ProcessResult` sent on the channel with the trace of external effects. -/
def processURL (env : Env) (cfg : Config) (arg : Str) (keep : Bool) :
    ProcessResult × PTrace :=
  match env.parseHost arg with
  | none => ({ URL := arg, Err := some .parseFailed }, {})
  | some hostname =>
    let parts := splitOnDot hostname
    if parts.length < 2 then
      ({ URL := arg, Err := some (.invalidDomain hostname) }, {})
    else
      let sectionName := parts.getD (parts.length - 2) []
      match cfg.getSection sectionName with
      | none =>
        ({ URL := arg, Err := some (.sectionNotFound sectionName),
           OutputMessages := [str "Processing section " ++ sectionName ++ str "..."] }, {})
      | some sect => afterSection env arg keep sectionName sect

/-! Asset downloader (regexdownload.go lines 207-238). -/

/-- Environment of one `downloadURL` invocation. -/
structure DEnv where
  fetch : Str → Fetch
  createErr : Bool
  copyErr : Bool

/-- The failure cases a `DownloadResult.Err` can carry. -/
inductive DErr where
  | transport (msg : Str)
  | badStatus (status : Nat)
  | createFailed
  | copyFailed
deriving DecidableEq, Repr

/-- Model of `DownloadResult` (regexdownload.go lines 31-36). -/
structure DownloadResult where
  URL : Str
  Filepath : Str
  Err : Option DErr := none
deriving DecidableEq, Repr

/-- Externally visible effect of one `downloadURL` invocation: whether
`os.Create` ran (creating or truncating the target file). -/
structure DTrace where
  created : Bool := false
deriving DecidableEq, Repr

/-- Model of `downloadURL` (regexdownload.go lines 207-238): GET, status
check, only then `os.Create` and streaming copy. -/
def downloadURL (env : DEnv) (url : Str) (fpath : Str) : DownloadResult × DTrace :=
  match env.fetch url with
  | .transportErr m =>
    ({ URL := url, Filepath := fpath, Err := some (.transport m) }, {})
  | .ok status _ =>
    if status ≠ 200 then
      ({ URL := url, Filepath := fpath, Err := some (.badStatus status) }, {})
    else if env.createErr then
      ({ URL := url, Filepath := fpath, Err := some .createFailed }, {})
    else if env.copyErr then
      ({ URL := url, Filepath := fpath, Err := some .copyFailed }, { created := true })
    else ({ URL := url, Filepath := fpath, Err := none }, { created := true })

/-! Orchestration (regexdownload.go lines 241-343). -/

/-- Model of `path.Ext`: the suffix of the last slash-separated element
starting at its last dot, empty when there is no dot. -/
def extAux : Str → Str → Str
  | [], _ => []
  | c :: rest, acc =>
    if c = '/' then []
    else if c = '.' then '.' :: acc
    else extAux rest (c :: acc)

/-- Model of `path.Ext(url)`. -/
def pathExt (l : Str) : Str := extAux l.reverse []

example : pathExt (str "http://h/a.b/u1.png") = str ".png" := by decide
example : pathExt (str "http://h/a.b/u2") = str "" := by decide

/-- Model of `fmt.Sprintf("%02d", n)` for a natural number: decimal digits,
zero-padded on the left to width at least 2. -/
def pad2 (n : Nat) : Str :=
  if n < 10 then '0' :: (toString n).toList else (toString n).toList

/-- Target filename computation of regexdownload.go lines 310-315:
`fmt.Sprintf("%s-%02d%s", res.FinalPrefix, fileIndex, extension)` with
extension defaulting to the literal `.unknown`. -/
def fileNameFor (pfx : Str) (fileIndex : Nat) (u : Str) : Str :=
  let ext := pathExt u
  let ext := if ext = [] then str ".unknown" else ext
  pfx ++ str "-" ++ pad2 fileIndex ++ ext

/-- Download-queuing loop body for one outcome (regexdownload.go lines
309-320), with `idx` the 1-based index of the next URL. -/
def planAux (pfx : Str) (idx : Nat) : List Str → List (Str × Str)
  | [] => []
  | u :: rest => (u, fileNameFor pfx idx u) :: planAux pfx (idx + 1) rest

/-- The (asset URL, target filename) pairs queued for one outcome
(regexdownload.go lines 291-320): none when the outcome failed or found no
URLs. -/
def planFor (r : ProcessResult) : List (Str × Str) :=
  match r.Err with
  | some _ => []
  | none =>
    if r.FoundURLs.length = 0 then []
    else planAux r.FinalPrefix 1 r.FoundURLs

/-- Observable orchestration events. -/
inductive Ev where
  | procDone (url : Str)
  | errReport (url : Str) (e : PErr)
  | launch (assetURL : Str) (fileName : Str)
deriving DecidableEq, Repr

/-- Phase-1 results in channel-arrival order: the seed list is given in that
(arbitrary) order, each seed paired with the environment its goroutine saw. -/
def phase1Results (cfg : Config) (keep : Bool) (seeds : List (Str × Env)) :
    List ProcessResult :=
  seeds.map (fun p => (processURL p.2 cfg p.1 keep).1)

/-- Event trace of `main` after configuration load (regexdownload.go lines
270-321): `parseWg.Wait()` (line 276) and the channel drain (lines 279-282)
complete every phase-1 task before the download loop (lines 291-321) reports
errors and launches downloads. -/
def mainEvents (cfg : Config) (keep : Bool) (seeds : List (Str × Env)) : List Ev :=
  (seeds.map (fun p => Ev.procDone p.1)) ++
  (phase1Results cfg keep seeds).flatMap (fun r =>
    match r.Err with
    | some e => [Ev.errReport r.URL e]
    | none => (planFor r).map (fun t => Ev.launch t.1 t.2))

/-! Reduction helpers for the claim proofs. -/

lemma processURL_reduce (env : Env) (cfg : Config) (arg : Str) (keep : Bool)
    (host : Str) (sect : ConfigSection)
    (h1 : env.parseHost arg = some host)
    (h2 : ¬ (splitOnDot host).length < 2)
    (h3 : cfg.getSection ((splitOnDot host).getD ((splitOnDot host).length - 2) []) = some sect) :
    processURL env cfg arg keep =
      afterSection env arg keep ((splitOnDot host).getD ((splitOnDot host).length - 2) []) sect := by
  simp only [processURL, h1, if_neg h2, h3]

lemma finishProcess_spec (env : Env) (arg : Str) (keep : Bool) (sectionName : Str)
    (sect : ConfigSection) (msgs : List Str) (prefixRaw : Str) (content : Str) :
    (finishProcess env arg keep sectionName sect msgs prefixRaw content).1.FinalPrefix =
        cleanPrefix prefixRaw ∧
    (finishProcess env arg keep sectionName sect msgs prefixRaw content).1.Err = none ∧
    (finishProcess env arg keep sectionName sect msgs prefixRaw content).1.FoundURLs =
        (extractFromKeys env content sect.keys).2 ∧
    (finishProcess env arg keep sectionName sect msgs prefixRaw content).2.httpGets = [arg] := by
  unfold finishProcess
  split_ifs <;> exact ⟨rfl, rfl, rfl, rfl⟩

lemma afterFetch_httpGets (env : Env) (arg : Str) (keep : Bool) (sectionName : Str)
    (sect : ConfigSection) (hp : Bool) (pv : Str) (msgs : List Str) (body : Str) :
    (afterFetch env arg keep sectionName sect hp pv msgs body).2.httpGets = [arg] := by
  unfold afterFetch
  split_ifs with hc1 hc2 hc3 hc4
  · rfl
  · rfl
  · rfl
  · cases env.compile pv with
    | none => rfl
    | some re =>
      dsimp only
      split_ifs <;> exact (finishProcess_spec env arg keep sectionName sect _ _ body).2.2.2
  · exact (finishProcess_spec env arg keep sectionName sect msgs pv body).2.2.2

/-- Fetch-related failure cases of a `ProcessResult`. -/
def PErr.isFetchErr : PErr → Bool
  | .downloadFailed _ => true
  | .badStatus _ => true
  | _ => false

/-- Fetch-related failure cases of a `DownloadResult`. -/
def DErr.isFetchErr : DErr → Bool
  | .transport _ => true
  | .badStatus _ => true
  | _ => false

lemma afterFetch_not_fetch_err (env : Env) (arg : Str) (keep : Bool) (sectionName : Str)
    (sect : ConfigSection) (hp : Bool) (pv : Str) (msgs : List Str) (body : Str) :
    ∀ e, (afterFetch env arg keep sectionName sect hp pv msgs body).1.Err = some e →
      e.isFetchErr = false := by
  intro e he
  unfold afterFetch at he
  split_ifs at he with hc1 hc2 hc3 hc4
  · cases he; rfl
  · cases he; rfl
  · cases he; rfl
  · revert he
    cases env.compile pv with
    | none => intro he; cases he; rfl
    | some re =>
      intro he
      dsimp only at he
      split_ifs at he <;>
        rw [(finishProcess_spec env arg keep sectionName sect _ _ body).2.1] at he <;>
        cases he
  · rw [(finishProcess_spec env arg keep sectionName sect msgs pv body).2.1] at he
    cases he

/-! Concrete environments used by counterexamples and witnesses. -/

/-- Regex value whose extraction finds two URLs, the first with a `.png`
extension and the second with none. -/
def reW : Regexv :=
  { findSubmatch := fun _ => [],
    findAllSubmatch := fun _ => [[str "m1", str "http://h/u1.png"], [str "m2", str "u2"]] }

/-- Section `ex` with one extraction key and no `prefix` key. -/
def sectW : ConfigSection := ⟨str "ex", [⟨str "reimg", str "pat"⟩]⟩

/-- Configuration holding only `sectW`. -/
def cfgW : Config := ⟨[sectW]⟩

/-- Happy-path environment: hostname `a.ex.com`, pattern `pat` compiles to
`reW`, every fetch returns 200, no filesystem failures. -/
def envW : Env :=
  { parseHost := fun _ => some (str "a.ex.com"),
    compile := fun p => if p = str "pat" then some reW else none,
    fetch := fun _ => .ok 200 (str "<html>"),
    unixTime := 7, unixNano := 9,
    createTempErr := false, copyErr := false, readErr := false, renameErr := false }

/-- The happy-path seed URL. -/
def seedW : Str := str "http://a.ex.com/p"

/-- Downloader environment answering 204 No Content to every GET. -/
def dEnv204 : DEnv := { fetch := fun _ => .ok 204 [], createErr := false, copyErr := false }

/-- C10: the download target file is created (and truncated) only after the
GET returned 200 OK; a transport error or a non-200 status yields a
`DownloadResult` carrying the error, with the target file never created. -/
theorem downloadURL_creates_only_on_200 (env : DEnv) (u fp : Str) :
    (∀ m, env.fetch u = .transportErr m →
       (downloadURL env u fp).1.Err = some (.transport m) ∧
       (downloadURL env u fp).2.created = false) ∧
    (∀ st b, env.fetch u = .ok st b → st ≠ 200 →
       (downloadURL env u fp).1.Err = some (.badStatus st) ∧
       (downloadURL env u fp).2.created = false) ∧
    ((downloadURL env u fp).2.created = true → ∃ b, env.fetch u = .ok 200 b) := by
  refine ⟨?_, ?_, ?_⟩
  · intro m hm
    simp [downloadURL, hm]
  · intro st b hb hst
    simp [downloadURL, hb, hst]
  · intro hc
    cases hf : env.fetch u with
    | transportErr m => simp [downloadURL, hf] at hc
    | ok st b =>
      by_cases hst : st = 200
      · subst hst; exact ⟨b, rfl⟩
      · simp [downloadURL, hf, hst] at hc

/-- C10 witness: at a concrete 204 response the downloader records the status
failure and creates no file. -/
theorem downloadURL_creates_only_on_200_witness :
    (downloadURL dEnv204 (str "http://h/u1.png") (str "f-01.png")).1.Err =
        some (.badStatus 204) ∧
    (downloadURL dEnv204 (str "http://h/u1.png") (str "f-01.png")).2.created = false :=
  (downloadURL_creates_only_on_200 dEnv204 (str "http://h/u1.png")
    (str "f-01.png")).2.1 204 [] rfl (by decide)

lemma planAux_getElem (pfx : Str) :
    ∀ (l : List Str) (n i : Nat),
      (planAux pfx n l)[i]? = l[i]?.map (fun u => (u, fileNameFor pfx (n + i) u)) := by
  intro l
  induction l with
  | nil => intro n i; simp [planAux]
  | cons u rest ih =>
    intro n i
    cases i with
    | zero => simp [planAux]
    | succ k =>
      have harith : n + 1 + k = n + (k + 1) := by omega
      simp only [planAux, List.getElem?_cons_succ, ih (n + 1) k, harith]

/-- C7: the download target for the asset at 0-based position `i` of a
surviving outcome is its prefix, a hyphen, the 1-based index `i+1` rendered by
`%02d` (decimal, zero-padded to width at least two), and the extension of the
asset URL, with the literal `.unknown` when the URL has none. -/
theorem downloadTarget_name (r : ProcessResult) (i : Nat) (u : Str)
    (he : r.Err = none) (hu : r.FoundURLs[i]? = some u) :
    (planFor r)[i]? = some (u, r.FinalPrefix ++ str "-" ++ pad2 (i + 1) ++
      (if pathExt u = [] then str ".unknown" else pathExt u)) := by
  have hne : ¬ r.FoundURLs.length = 0 := by
    intro h0
    rw [List.length_eq_zero.mp h0] at hu
    simp at hu
  unfold planFor
  rw [he]
  rw [if_neg hne, planAux_getElem r.FinalPrefix r.FoundURLs 1 i, hu]
  have harith : 1 + i = i + 1 := by omega
  simp [fileNameFor, harith]

/-- C7 witness: at the concrete happy-path outcome the second asset URL `u2`
(no extension) is targeted at `ex-7-02.unknown`. -/
theorem downloadTarget_name_witness :
    (processURL envW cfgW seedW false).1.Err = none ∧
    (processURL envW cfgW seedW false).1.FoundURLs[1]? = some (str "u2") ∧
    (planFor (processURL envW cfgW seedW false).1)[1]? =
      some (str "u2", str "ex-7-02.unknown") := by
  have h := downloadTarget_name (processURL envW cfgW seedW false).1 1 (str "u2")
    rfl (by decide)
  exact ⟨rfl, by decide, by rw [h]; decide⟩

/-- C5: the strict barrier.  In the orchestration trace every phase-1
completion event precedes every download-launch event: `parseWg.Wait()` and
the result drain run before the download loop spawns anything. -/
theorem phase2_after_phase1 (cfg : Config) (keep : Bool) (seeds : List (Str × Env))
    (i j : Nat) (u a f : Str)
    (hi : (mainEvents cfg keep seeds)[i]? = some (Ev.procDone u))
    (hj : (mainEvents cfg keep seeds)[j]? = some (Ev.launch a f)) : i < j := by
  have hnp : ∀ e ∈ (phase1Results cfg keep seeds).flatMap (fun r =>
      match r.Err with
      | some er => [Ev.errReport r.URL er]
      | none => (planFor r).map (fun t => Ev.launch t.1 t.2)), ∀ v, e ≠ Ev.procDone v := by
    intro e he v
    obtain ⟨r, _, hmem⟩ := List.mem_flatMap.mp he
    cases hr : r.Err with
    | some er =>
      rw [hr] at hmem
      rw [List.mem_singleton.mp hmem]
      intro hcon; cases hcon
    | none =>
      rw [hr] at hmem
      obtain ⟨t, _, ht⟩ := List.mem_map.mp hmem
      rw [← ht]
      intro hcon; cases hcon
  have hlen : (seeds.map (fun p => Ev.procDone p.1)).length = seeds.length := by
    simp
  have hi' : i < seeds.length := by
    by_contra hcon
    push_neg at hcon
    rw [mainEvents, List.getElem?_append, hlen, if_neg (by omega)] at hi
    exact hnp _ (List.getElem?_mem hi) u rfl
  have hj' : seeds.length ≤ j := by
    by_contra hcon
    push_neg at hcon
    rw [mainEvents, List.getElem?_append, hlen, if_pos (by omega)] at hj
    rw [List.getElem?_map] at hj
    cases hs : seeds[j]? with
    | none => rw [hs] at hj; cases hj
    | some p =>
      rw [hs] at hj
      simp only [Option.map_some'] at hj
      cases hj
  omega

/-- C5 witness: in the concrete one-seed run the phase-1 completion at index 0
precedes the download launch at index 1. -/
theorem phase2_after_phase1_witness :
    (mainEvents cfgW false [(seedW, envW)])[0]? = some (Ev.procDone seedW) ∧
    (mainEvents cfgW false [(seedW, envW)])[1]? =
      some (Ev.launch (str "http://h/u1.png") (str "ex-7-01.png")) ∧
    0 < 1 :=
  ⟨by decide, by decide,
   phase2_after_phase1 cfgW false [(seedW, envW)] 0 1 seedW
     (str "http://h/u1.png") (str "ex-7-01.png") (by decide) (by decide)⟩

/-- C9: failure isolation.  Whatever the other seeds do, every failing seed
has its error reported at the orchestration boundary, and every surviving
outcome has each of its planned downloads (with computed target filename)
launched. -/
theorem seed_failure_isolation (cfg : Config) (keep : Bool) (seeds : List (Str × Env)) :
    ∀ p ∈ seeds,
      (∀ e, (processURL p.2 cfg p.1 keep).1.Err = some e →
        Ev.errReport (processURL p.2 cfg p.1 keep).1.URL e ∈ mainEvents cfg keep seeds) ∧
      ((processURL p.2 cfg p.1 keep).1.Err = none →
        ∀ t ∈ planFor (processURL p.2 cfg p.1 keep).1,
          Ev.launch t.1 t.2 ∈ mainEvents cfg keep seeds) := by
  intro p hp
  have hr : (processURL p.2 cfg p.1 keep).1 ∈ phase1Results cfg keep seeds :=
    List.mem_map.mpr ⟨p, hp, rfl⟩
  constructor
  · intro e he
    apply List.mem_append_right
    apply List.mem_flatMap.mpr
    refine ⟨_, hr, ?_⟩
    rw [he]
    exact List.mem_singleton.mpr rfl
  · intro hn t ht
    apply List.mem_append_right
    apply List.mem_flatMap.mpr
    refine ⟨_, hr, ?_⟩
    rw [hn]
    exact List.mem_map.mpr ⟨t, ht, rfl⟩

/-- Environment whose URL parsing fails, producing a failing seed. -/
def envBad : Env :=
  { parseHost := fun _ => none,
    compile := fun _ => none,
    fetch := fun _ => .ok 200 [],
    unixTime := 0, unixNano := 0,
    createTempErr := false, copyErr := false, readErr := false, renameErr := false }

/-- Seed list mixing one failing seed with the happy-path seed. -/
def seedsC9 : List (Str × Env) := [(str "bad://x", envBad), (seedW, envW)]

/-- C9 witness: with a failing first seed, the failure is reported and the
second, surviving seed still has its download launched. -/
theorem seed_failure_isolation_witness :
    Ev.errReport (str "bad://x") PErr.parseFailed ∈ mainEvents cfgW false seedsC9 ∧
    Ev.launch (str "http://h/u1.png") (str "ex-7-01.png") ∈ mainEvents cfgW false seedsC9 := by
  have h1 := (seed_failure_isolation cfgW false seedsC9 (str "bad://x", envBad)
    (List.mem_cons_self _ _)).1 PErr.parseFailed rfl
  have h2 := (seed_failure_isolation cfgW false seedsC9 (seedW, envW)
    (List.mem_cons_of_mem _ (List.mem_cons_self _ _))).2 rfl
    (str "http://h/u1.png", str "ex-7-01.png") (by decide)
  exact ⟨h1, h2⟩

/-- C8 counterexample: the scheme gate sits after URL parsing, domain
validation and section resolution.  A non-HTTP seed with a one-label hostname
produces a failure outcome (the claim says no failure), and an HTTP seed with
a one-label hostname issues no GET (the claim says a GET is issued). -/
theorem processURL_scheme_gate_cex :
    (httpScheme (str "ftp://localhost/a") = false ∧
     (processURL envBad cfgW (str "ftp://localhost/a") false).1.Err ≠ none) ∧
    (httpScheme (str "http://localhost/a") = true ∧
     (processURL envBad cfgW (str "http://localhost/a") false).2.httpGets = []) := by
  decide

/-- C8 (amended): for a seed URL whose parsing, domain validation and section
resolution succeed, a non-HTTP/HTTPS argument skips fetching (no GET is
issued) and produces a failure-free outcome with sanitized prefix and no asset
URLs, while an HTTP/HTTPS argument proceeds to issue exactly one GET. -/
theorem processURL_scheme_gate (env : Env) (cfg : Config) (arg : Str) (keep : Bool)
    (host : Str) (sect : ConfigSection)
    (h1 : env.parseHost arg = some host)
    (h2 : ¬ (splitOnDot host).length < 2)
    (h3 : cfg.getSection ((splitOnDot host).getD ((splitOnDot host).length - 2) []) = some sect) :
    (httpScheme arg = false →
      (processURL env cfg arg keep).2.httpGets = [] ∧
      (processURL env cfg arg keep).1.Err = none ∧
      (processURL env cfg arg keep).1.FoundURLs = [] ∧
      (processURL env cfg arg keep).1.FinalPrefix =
        cleanPrefix (if sect.hasKey (str "prefix") then sect.keyString (str "prefix")
          else ((splitOnDot host).getD ((splitOnDot host).length - 2) []) ++ str "-" ++
            (toString env.unixTime).toList)) ∧
    (httpScheme arg = true → (processURL env cfg arg keep).2.httpGets = [arg]) := by
  rw [processURL_reduce env cfg arg keep host sect h1 h2 h3]
  constructor
  · intro hs
    simp [afterSection, hs]
  · intro hs
    simp only [afterSection, hs]
    rw [if_neg (by simp [hs])]
    cases hf : env.fetch arg with
    | transportErr m => rfl
    | ok status body =>
      dsimp only
      by_cases hst : status = 200
      · rw [if_neg (by omega)]
        exact afterFetch_httpGets _ _ _ _ _ _ _ _ _
      · rw [if_pos hst]

/-- C8 witness: at the concrete environment a `ftp://` seed yields no GET, no
failure and no asset URLs, while the `http://` seed yields exactly one GET. -/
theorem processURL_scheme_gate_witness :
    (processURL envW cfgW (str "ftp://a.ex.com/p") false).2.httpGets = [] ∧
    (processURL envW cfgW (str "ftp://a.ex.com/p") false).1.Err = none ∧
    (processURL envW cfgW (str "ftp://a.ex.com/p") false).1.FoundURLs = [] ∧
    (processURL envW cfgW seedW false).2.httpGets = [seedW] := by
  have ha := (processURL_scheme_gate envW cfgW (str "ftp://a.ex.com/p") false
    (str "a.ex.com") sectW rfl (by decide) (by decide)).1 (by decide)
  have hb := (processURL_scheme_gate envW cfgW seedW false
    (str "a.ex.com") sectW rfl (by decide) (by decide)).2 (by decide)
  exact ⟨ha.1, ha.2.1, ha.2.2.1, hb⟩

/-- Regex value that never matches. -/
def reNoMatch : Regexv := { findSubmatch := fun _ => [], findAllSubmatch := fun _ => [] }

/-- Section `ex` whose `prefix` key holds the pattern `xyz`. -/
def sectC1 : ConfigSection := ⟨str "ex", [⟨str "prefix", str "xyz"⟩]⟩

/-- Configuration holding only `sectC1`. -/
def cfgC1 : Config := ⟨[sectC1]⟩

/-- Configuration whose section `ex` has a `prefix` key that sanitizes to the
empty string. -/
def cfgC1b : Config := ⟨[⟨str "ex", [⟨str "prefix", str "|"⟩]⟩]⟩

/-- Environment where the pattern `xyz` compiles to a never-matching regex and
every fetch returns 200. -/
def envC1 : Env :=
  { parseHost := fun _ => some (str "a.ex.com"),
    compile := fun p => if p = str "xyz" then some reNoMatch else none,
    fetch := fun _ => .ok 200 (str "body"),
    unixTime := 0, unixNano := 0,
    createTempErr := false, copyErr := false, readErr := false, renameErr := false }

/-- C1 counterexample.  First part: with a configured `prefix` pattern that
does not match, the final prefix is the sanitized pattern string `xyz`, not
the sanitized `ex-0` fallback (the environment clock reads 0).  Second part:
an outcome with no failure whose sanitized prefix is empty, refuting the
non-emptiness invariant. -/
theorem processURL_fallback_cex :
    ((processURL envC1 cfgC1 (str "http://a.ex.com/p") false).1.Err = none ∧
     (processURL envC1 cfgC1 (str "http://a.ex.com/p") false).1.FinalPrefix = str "xyz" ∧
     str "xyz" ≠ cleanPrefix (str "ex-0")) ∧
    ((processURL envC1 cfgC1b (str "ftp://a.ex.com/p") false).1.Err = none ∧
     (processURL envC1 cfgC1b (str "ftp://a.ex.com/p") false).1.FinalPrefix = []) := by
  decide

lemma afterSection_fetch200 (env : Env) (arg : Str) (keep : Bool) (sn : Str)
    (sect : ConfigSection) (body : Str)
    (h5 : httpScheme arg = true) (h6 : env.fetch arg = .ok 200 body) :
    afterSection env arg keep sn sect =
      afterFetch env arg keep sn sect (sect.hasKey (str "prefix"))
        (if sect.hasKey (str "prefix") then sect.keyString (str "prefix")
         else sn ++ str "-" ++ (toString env.unixTime).toList)
        [str "Processing section " ++ sn ++ str "..."] body := by
  unfold afterSection
  rw [if_neg (by simp [h5]), h6]
  dsimp only
  rw [if_neg (by omega)]

lemma afterFetch_flags_ok (env : Env) (arg : Str) (keep : Bool) (sn : Str)
    (sect : ConfigSection) (hp : Bool) (pv : Str) (msgs : List Str) (body : Str)
    (h7 : env.createTempErr = false) (h8 : env.copyErr = false)
    (h9 : env.readErr = false) :
    afterFetch env arg keep sn sect hp pv msgs body =
      (if hp then
        match env.compile pv with
        | none =>
          ({ URL := arg, FinalPrefix := pv,
             Err := some (.invalidPrefixRegex pv), OutputMessages := msgs },
           { httpGets := [arg], tempCreated := true, tempRemoved := false })
        | some re =>
          if 2 ≤ (re.findSubmatch body).length then
            finishProcess env arg keep sn sect
              (msgs ++ [str "  Prefix extracted from content."])
              ((re.findSubmatch body).getD 1 []) body
          else
            finishProcess env arg keep sn sect
              (msgs ++ [str "  Prefix regex did not match or had no capture group."])
              pv body
       else finishProcess env arg keep sn sect msgs pv body) := by
  unfold afterFetch
  rw [if_neg (by simp [h7]), if_neg (by simp [h8]), if_neg (by simp [h9])]

/-- C1 (amended): on the fetched path with all temp-file operations
succeeding, when a configured `prefix` pattern compiles but does not match (or
yields no capture group) the final prefix is the sanitized pattern string
itself; when no `prefix` pattern is configured the final prefix is the
sanitized `<section>-<unix-timestamp>`.  Either way the outcome carries no
failure; the sanitized prefix can be empty. -/
theorem processURL_unmatched_pattern (env : Env) (cfg : Config) (arg : Str) (keep : Bool)
    (host : Str) (sect : ConfigSection) (re : Regexv) (body : Str)
    (h1 : env.parseHost arg = some host)
    (h2 : ¬ (splitOnDot host).length < 2)
    (h3 : cfg.getSection ((splitOnDot host).getD ((splitOnDot host).length - 2) []) = some sect)
    (h5 : httpScheme arg = true)
    (h6 : env.fetch arg = .ok 200 body)
    (h7 : env.createTempErr = false)
    (h8 : env.copyErr = false)
    (h9 : env.readErr = false) :
    (sect.hasKey (str "prefix") = true →
      env.compile (sect.keyString (str "prefix")) = some re →
      (re.findSubmatch body).length < 2 →
      (processURL env cfg arg keep).1.FinalPrefix =
          cleanPrefix (sect.keyString (str "prefix")) ∧
      (processURL env cfg arg keep).1.Err = none) ∧
    (sect.hasKey (str "prefix") = false →
      (processURL env cfg arg keep).1.FinalPrefix =
          cleanPrefix (((splitOnDot host).getD ((splitOnDot host).length - 2) []) ++
            str "-" ++ (toString env.unixTime).toList) ∧
      (processURL env cfg arg keep).1.Err = none) := by
  rw [processURL_reduce env cfg arg keep host sect h1 h2 h3,
    afterSection_fetch200 env arg keep _ sect body h5 h6,
    afterFetch_flags_ok env arg keep _ sect _ _ _ body h7 h8 h9]
  constructor
  · intro hk hc hm
    rw [hk, if_pos rfl, if_pos rfl, hc]
    dsimp only
    rw [if_neg (by omega)]
    exact ⟨(finishProcess_spec _ _ _ _ _ _ _ _).1, (finishProcess_spec _ _ _ _ _ _ _ _).2.1⟩
  · intro hk
    rw [hk, if_neg (by simp), if_neg (by simp)]
    exact ⟨(finishProcess_spec _ _ _ _ _ _ _ _).1, (finishProcess_spec _ _ _ _ _ _ _ _).2.1⟩

/-- C1 witness: at the concrete environment with non-matching `prefix` pattern
`xyz` the final prefix is the sanitized pattern string and the outcome has no
failure. -/
theorem processURL_unmatched_pattern_witness :
    (processURL envC1 cfgC1 (str "http://a.ex.com/p") false).1.FinalPrefix = str "xyz" ∧
    (processURL envC1 cfgC1 (str "http://a.ex.com/p") false).1.Err = none := by
  have h := (processURL_unmatched_pattern envC1 cfgC1 (str "http://a.ex.com/p") false
    (str "a.ex.com") sectC1 reNoMatch (str "body") rfl (by decide) (by decide) (by decide)
    rfl rfl rfl rfl).1 (by decide) rfl (by decide)
  exact ⟨by rw [h.1]; decide, h.2⟩

/-- Environment answering 204 No Content to every page fetch. -/
def envC4 : Env := { envW with fetch := fun _ => .ok 204 [] }

/-- C4 counterexample: 204 is a 2xx status, yet both the page processor and
the asset downloader record it as a fatal outcome. -/
theorem fetch_fatal_only_200_cex :
    (200 ≤ 204 ∧ 204 < 300) ∧
    (processURL envC4 cfgW seedW false).1.Err = some (.badStatus 204) ∧
    (downloadURL dEnv204 (str "u") (str "f")).1.Err = some (.badStatus 204) := by
  decide

/-- C4 (amended): for both fetches the outcome is fatal exactly on a transport
error or a status different from 200 OK; only a 200 response is treated as a
successful fetch (other 2xx statuses are fatal). -/
theorem fetch_fatal_only_200 (env : Env) (cfg : Config) (arg : Str) (keep : Bool)
    (host : Str) (sect : ConfigSection) (denv : DEnv) (du dfp : Str)
    (h1 : env.parseHost arg = some host)
    (h2 : ¬ (splitOnDot host).length < 2)
    (h3 : cfg.getSection ((splitOnDot host).getD ((splitOnDot host).length - 2) []) = some sect)
    (h5 : httpScheme arg = true) :
    (∀ m, env.fetch arg = .transportErr m →
      (processURL env cfg arg keep).1.Err = some (.downloadFailed m)) ∧
    (∀ st b, env.fetch arg = .ok st b → st ≠ 200 →
      (processURL env cfg arg keep).1.Err = some (.badStatus st)) ∧
    (∀ b, env.fetch arg = .ok 200 b →
      ∀ e, (processURL env cfg arg keep).1.Err = some e → e.isFetchErr = false) ∧
    (∀ m, denv.fetch du = .transportErr m →
      (downloadURL denv du dfp).1.Err = some (.transport m)) ∧
    (∀ st b, denv.fetch du = .ok st b → st ≠ 200 →
      (downloadURL denv du dfp).1.Err = some (.badStatus st)) ∧
    (∀ b, denv.fetch du = .ok 200 b →
      ∀ e, (downloadURL denv du dfp).1.Err = some e → e.isFetchErr = false) := by
  rw [processURL_reduce env cfg arg keep host sect h1 h2 h3]
  refine ⟨?_, ?_, ?_, ?_, ?_, ?_⟩
  · intro m hm
    unfold afterSection
    rw [if_neg (by simp [h5]), hm]
  · intro st b hb hst
    unfold afterSection
    rw [if_neg (by simp [h5]), hb]
    dsimp only
    rw [if_pos hst]
  · intro b hb e he
    rw [afterSection_fetch200 env arg keep _ sect b h5 hb] at he
    exact afterFetch_not_fetch_err _ _ _ _ _ _ _ _ _ e he
  · intro m hm
    simp [downloadURL, hm]
  · intro st b hb hst
    simp [downloadURL, hb, hst]
  · intro b hb e he
    unfold downloadURL at he
    rw [hb] at he
    dsimp only at he
    rw [if_neg (by omega)] at he
    split_ifs at he with hc1 hc2
    · cases he; rfl
    · cases he; rfl

/-- C4 witness: at the concrete 204 environments both fetches are recorded as
fatal status failures. -/
theorem fetch_fatal_only_200_witness :
    (processURL envC4 cfgW seedW false).1.Err = some (.badStatus 204) ∧
    (downloadURL dEnv204 (str "u") (str "f")).1.Err = some (.badStatus 204) := by
  have h := fetch_fatal_only_200 envC4 cfgW seedW false (str "a.ex.com") sectW
    dEnv204 (str "u") (str "f") rfl (by decide) (by decide) (by decide)
  exact ⟨h.2.1 204 [] rfl (by decide), h.2.2.2.2.1 204 [] rfl (by decide)⟩

lemma foldl_matches_append (ms : List (List Str)) :
    ∀ us : List Str,
      ms.foldl (fun us m => if 1 < m.length then us ++ [m.getD 1 []] else us) us =
        us ++ ms.filterMap (fun m => if 1 < m.length then some (m.getD 1 []) else none) := by
  induction ms with
  | nil => intro us; simp
  | cons m ms ih =>
    intro us
    rw [List.foldl_cons, List.filterMap_cons]
    by_cases hm : 1 < m.length
    · rw [if_pos hm, if_pos hm]
      dsimp only
      rw [ih (us ++ [m.getD 1 []])]
      simp only [List.append_assoc, List.singleton_append]
    · rw [if_neg hm, if_neg hm]
      dsimp only
      exact ih us

lemma extractFromKeys_snd (env : Env) (content : Str) :
    ∀ (keys : List ConfigKey) (acc : List Str × List Str),
      (keys.foldl (fun acc k =>
        if strStarts k.name (str "re") then
          match env.compile k.value with
          | none => (acc.1 ++ [str "  Warning: Invalid regex for key " ++ k.name], acc.2)
          | some re =>
            (acc.1,
             (re.findAllSubmatch content).foldl
               (fun us m => if 1 < m.length then us ++ [m.getD 1 []] else us) acc.2)
        else acc) acc).2 =
      acc.2 ++ keys.flatMap (fun k =>
        if strStarts k.name (str "re") then
          match env.compile k.value with
          | none => []
          | some re =>
            (re.findAllSubmatch content).filterMap
              (fun m => if 1 < m.length then some (m.getD 1 []) else none)
        else []) := by
  intro keys
  induction keys with
  | nil => intro acc; simp
  | cons k ks ih =>
    intro acc
    simp only [List.foldl_cons, List.flatMap_cons]
    by_cases hk : strStarts k.name (str "re")
    · rw [if_pos hk, if_pos hk]
      cases hc : env.compile k.value with
      | none =>
        rw [ih]
        simp
      | some re =>
        dsimp only
        rw [ih, foldl_matches_append]
        simp [List.append_assoc]
    · rw [if_neg hk, if_neg hk, ih]
      simp

lemma extractFromKeys_eq (env : Env) (content : Str) (keys : List ConfigKey) :
    (extractFromKeys env content keys).2 =
      keys.flatMap (fun k =>
        if strStarts k.name (str "re") then
          match env.compile k.value with
          | none => []
          | some re =>
            (re.findAllSubmatch content).filterMap
              (fun m => if 1 < m.length then some (m.getD 1 []) else none)
        else []) := by
  unfold extractFromKeys
  rw [extractFromKeys_snd env content keys ([], [])]
  simp

lemma filterMap_of_rows (ms : List (List Str)) (h : ∀ m ∈ ms, 2 ≤ m.length) :
    ms.filterMap (fun m => if 1 < m.length then some (m.getD 1 []) else none) =
      ms.map (fun m => m.getD 1 []) := by
  induction ms with
  | nil => rfl
  | cons m ms ih =>
    simp only [List.filterMap_cons, List.map_cons]
    rw [if_pos (by have := h m (List.mem_cons_self _ _); omega)]
    rw [ih (fun x hx => h x (List.mem_cons_of_mem _ hx))]

lemma flatMap_congr_mem {α β : Type} (l : List α) (f g : α → List β)
    (h : ∀ a ∈ l, f a = g a) : l.flatMap f = l.flatMap g := by
  induction l with
  | nil => rfl
  | cons a t ih =>
    simp only [List.flatMap_cons]
    rw [h a (List.mem_cons_self _ _), ih (fun x hx => h x (List.mem_cons_of_mem _ hx))]

lemma map_congr_mem {α β : Type} (l : List α) (f g : α → β)
    (h : ∀ a ∈ l, f a = g a) : l.map f = l.map g := by
  induction l with
  | nil => rfl
  | cons a t ih =>
    simp only [List.map_cons]
    rw [h a (List.mem_cons_self _ _), ih (fun x hx => h x (List.mem_cons_of_mem _ hx))]

/-- C6: for an outcome on the fetched path, the asset URL list is exactly the
concatenation, over the section keys whose names start with `re` and whose
patterns compile, of the first capture group of each non-overlapping match in
document order; its length is the sum of the per-key match counts.  The
hypothesis `hrows` records the Go regexp guarantee that every reported match
of a pattern with at least one capture group carries a full group row. -/
theorem extraction_concat (env : Env) (cfg : Config) (arg : Str) (keep : Bool)
    (host : Str) (sect : ConfigSection) (body : Str)
    (h1 : env.parseHost arg = some host)
    (h2 : ¬ (splitOnDot host).length < 2)
    (h3 : cfg.getSection ((splitOnDot host).getD ((splitOnDot host).length - 2) []) = some sect)
    (h5 : httpScheme arg = true)
    (h6 : env.fetch arg = .ok 200 body)
    (h7 : env.createTempErr = false)
    (h8 : env.copyErr = false)
    (h9 : env.readErr = false)
    (hp : sect.hasKey (str "prefix") = true →
      (env.compile (sect.keyString (str "prefix"))).isSome = true)
    (hrows : ∀ k ∈ sect.keys, strStarts k.name (str "re") = true →
      ∀ m ∈ (match env.compile k.value with
             | some re => re.findAllSubmatch body
             | none => []), 2 ≤ m.length) :
    (processURL env cfg arg keep).1.FoundURLs =
      sect.keys.flatMap (fun k =>
        if strStarts k.name (str "re") then
          match env.compile k.value with
          | some re => (re.findAllSubmatch body).map (fun m => m.getD 1 [])
          | none => []
        else []) ∧
    (processURL env cfg arg keep).1.FoundURLs.length =
      (sect.keys.map (fun k =>
        if strStarts k.name (str "re") then
          match env.compile k.value with
          | some re => (re.findAllSubmatch body).length
          | none => 0
        else 0)).sum := by
  have hfound : (processURL env cfg arg keep).1.FoundURLs =
      (extractFromKeys env body sect.keys).2 := by
    rw [processURL_reduce env cfg arg keep host sect h1 h2 h3,
      afterSection_fetch200 env arg keep _ sect body h5 h6,
      afterFetch_flags_ok env arg keep _ sect _ _ _ body h7 h8 h9]
    by_cases hk : sect.hasKey (str "prefix")
    · rw [hk, if_pos rfl, if_pos rfl]
      obtain ⟨re, hre⟩ := Option.isSome_iff_exists.mp (hp hk)
      rw [hre]
      dsimp only
      split_ifs
      · exact (finishProcess_spec _ _ _ _ _ _ _ _).2.2.1
      · exact (finishProcess_spec _ _ _ _ _ _ _ _).2.2.1
    · have hk' : sect.hasKey (str "prefix") = false := by simpa using hk
      rw [hk', if_neg (by simp), if_neg (by simp)]
      exact (finishProcess_spec _ _ _ _ _ _ _ _).2.2.1
  have hmain : (processURL env cfg arg keep).1.FoundURLs =
      sect.keys.flatMap (fun k =>
        if strStarts k.name (str "re") then
          match env.compile k.value with
          | some re => (re.findAllSubmatch body).map (fun m => m.getD 1 [])
          | none => []
        else []) := by
    rw [hfound, extractFromKeys_eq]
    apply flatMap_congr_mem
    intro k hkmem
    by_cases hs : strStarts k.name (str "re")
    · rw [if_pos hs, if_pos hs]
      have hrk := hrows k hkmem hs
      cases hc : env.compile k.value with
      | none => rfl
      | some re =>
        dsimp only
        rw [hc] at hrk
        exact filterMap_of_rows (re.findAllSubmatch body) hrk
    · rw [if_neg hs, if_neg hs]
  refine ⟨hmain, ?_⟩
  rw [hmain, List.length_flatMap]
  congr 1
  apply map_congr_mem
  intro k _
  by_cases hs : strStarts k.name (str "re")
  · rw [Function.comp_apply, if_pos hs, if_pos hs]
    cases env.compile k.value with
    | none => rfl
    | some re => exact List.length_map _ _
  · rw [Function.comp_apply, if_neg hs, if_neg hs]
    rfl

/-- C6 witness: at the concrete happy-path environment the single extraction
key matches twice, the asset list is the two first capture groups in document
order, and its length is 2. -/
theorem extraction_concat_witness :
    (processURL envW cfgW seedW false).1.FoundURLs =
      [str "http://h/u1.png", str "u2"] ∧
    (processURL envW cfgW seedW false).1.FoundURLs.length = 2 := by
  have h := extraction_concat envW cfgW seedW false (str "a.ex.com") sectW (str "<html>")
    rfl (by decide) (by decide) (by decide) rfl rfl rfl rfl (by decide) (by decide)
  exact ⟨by rw [h.1]; decide, by rw [h.2]; decide⟩

/-- Configuration whose section `ex` holds an invalid `prefix` pattern. -/
def cfgC2 : Config := ⟨[⟨str "ex", [⟨str "prefix", str "("⟩]⟩]⟩

/-- Environment where pattern compilation fails and the page fetch succeeds. -/
def envC2 : Env :=
  { parseHost := fun _ => some (str "a.ex.com"),
    compile := fun _ => none,
    fetch := fun _ => .ok 200 (str "<html>"),
    unixTime := 0, unixNano := 0,
    createTempErr := false, copyErr := false, readErr := false, renameErr := false }

/-- C2 failing input: with a configured `prefix` pattern that fails to
compile after a successful fetch, `processURL` returns from the exit at
regexdownload.go lines 155-158 with the temporary file created but neither
renamed nor removed: that exit path leaks the temporary file on disk. -/
theorem tempFile_leak_on_bad_pattern :
    (processURL envC2 cfgC2 seedW false).2.tempCreated = true ∧
    (processURL envC2 cfgC2 seedW false).2.tempRemoved = false ∧
    (processURL envC2 cfgC2 seedW false).2.tempRenamed = none ∧
    (processURL envC2 cfgC2 seedW false).1.Err =
      some (.invalidPrefixRegex (str "(")) := by
  decide
